import Mathlib

/-!
Verification of the password-charm store engine against its specification.

The development shallowly embeds the Go source: the filesystem is an
association list from absolute paths to file contents (a write prepends, a
read returns the most recent entry), the external password-based encryption
primitive is idealized (a sealed blob is recoverable exactly under the
passphrase used to seal it), stored plaintexts are either the JSON
serialization of a record or bytes that fail to deserialize, and the
cryptographically secure randomness consumed by the password generator is an
oracle of type Nat to Nat whose successive values drive successive draws.
Go strings are modelled as lists of characters.
-/

namespace PasswordCharm

abbrev Str := List Char

/-- Filesystem: association list from paths to contents; newest entry wins. -/
abbrev FS (α : Type) : Type := List (Str × α)

def fsRead {α : Type} : FS α → Str → Option α
  | [], _ => none
  | (q, v) :: rest, p => if p = q then some v else fsRead rest p

def fsWrite {α : Type} (fs : FS α) (p : Str) (v : α) : FS α := (p, v) :: fs

/-- encryption.Data: one password record with metadata; instants are Nat. -/
structure Data where
  password : Str
  username : Str
  email : Str
  url : Str
  createdAt : Nat
  updatedAt : Nat
  deriving DecidableEq

/-- Plaintext bytes inside a ciphertext: either the JSON serialization of a
record, or bytes on which json.Unmarshal fails. -/
inductive Plain where
  | json (d : Data)
  | malformed (id : Nat)
  deriving DecidableEq

/-- Armored ciphertext produced by the external password-based encryption:
idealized, it remembers the sealing passphrase and the plaintext, and
decryption succeeds exactly under that passphrase. -/
structure Blob where
  pass : Str
  plain : Plain
  deriving DecidableEq

/-- One entry of a directory listing, as returned by os.ReadDir. -/
structure DirEntry where
  name : Str
  isDir : Bool
  deriving DecidableEq

/-- fileio.PasswordFolder: store location, cached listing, bootstrap flag and
the in-memory master password. -/
structure PasswordFolder where
  folderLocation : Str
  dirs : List DirEntry
  initCheck : Bool
  password : Str
  deriving DecidableEq

/-- The path used by fileio for a store key: folderLocation/fileName.gpg. -/
def filePath (pf : PasswordFolder) (fileName : Str) : Str :=
  pf.folderLocation ++ '/' :: (fileName ++ ".gpg".data)

/-- A single os.WriteFile call: target path, bytes and file mode. -/
structure SysWrite (α : Type) where
  path : Str
  content : α
  mode : Nat
  deriving DecidableEq

/-- fileio.WriteToFile: os.WriteFile at folderLocation/fileName.gpg with file
mode 0666; returns the updated filesystem and the performed write. -/
def WriteToFile {α : Type} (fs : FS α) (pf : PasswordFolder) (fileName : Str) (input : α) :
    FS α × SysWrite α :=
  let w : SysWrite α := ⟨filePath pf fileName, input, 0o666⟩
  (fsWrite fs w.path w.content, w)

/-- fileio.ReadFromFile: os.ReadFile at folderLocation/fileName.gpg. -/
def ReadFromFile {α : Type} (fs : FS α) (pf : PasswordFolder) (fileName : Str) : Option α :=
  fsRead fs (filePath pf fileName)

def jsonMarshal (d : Data) : Plain := .json d

def jsonUnmarshal : Plain → Option Data
  | .json d => some d
  | .malformed _ => none

/-- The Go zero value of encryption.Data. -/
def emptyData : Data := ⟨[], [], [], [], 0, 0⟩

/-- encryption.EncryptPasswordAndWriteToFile: marshal the record, seal it under
the folder password, write the armored blob at fileName.gpg. -/
def EncryptPasswordAndWriteToFile (fs : FS Blob) (pf : PasswordFolder) (fileName : Str)
    (d : Data) : FS Blob :=
  (WriteToFile fs pf fileName ⟨pf.password, jsonMarshal d⟩).1

inductive DecErr where
  | notFound
  | cipher
  deriving DecidableEq

/-- encryption.DecryptPasswordFromFile: read the blob, decrypt with the folder
password, then json.Unmarshal into a zero record. The Go code discards the
return value of json.Unmarshal, so a plaintext that fails to deserialize still
yields a successful result carrying the zero record. -/
def DecryptPasswordFromFile (fs : FS Blob) (pf : PasswordFolder) (fileName : Str) :
    Except DecErr Data :=
  match ReadFromFile fs pf fileName with
  | none => .error .notFound
  | some blob =>
    if pf.password = blob.pass then
      match jsonUnmarshal blob.plain with
      | some d => .ok d
      | none => .ok emptyData
    else .error .cipher

/-- strings.HasSuffix. -/
def goHasSuffix (s suffix : Str) : Bool := decide (suffix <:+ s)

/-- strings.Contains. -/
def goContains (s sub : Str) : Bool := decide (sub <:+: s)

/-- strings.TrimSuffix. -/
def trimSuffix (s suffix : Str) : Str :=
  if goHasSuffix s suffix then s.take (s.length - suffix.length) else s

/-- strings.LastIndex for a single character needle. -/
def lastIndexOf : Str → Char → Option Nat
  | [], _ => none
  | a :: t, c =>
    match lastIndexOf t c with
    | some i => some (i + 1)
    | none => if a = c then some 0 else none

def replaceUnderscores (l : Str) : Str := l.map fun c => if c = '_' then ' ' else c

/-- utils.ParseFilenameToSiteName: strip a .gpg extension, look for a trailing
timestamp after the last underscore and drop it when recognized, then turn the
remaining underscores into spaces. -/
def ParseFilenameToSiteName (filename : Str) : Str :=
  let f := if goHasSuffix filename ".gpg".data then trimSuffix filename ".gpg".data
           else filename
  match lastIndexOf f '_' with
  | none => replaceUnderscores f
  | some lastUnderscore =>
    let potentialTimestamp := f.drop (lastUnderscore + 1)
    if potentialTimestamp.length = 15 ∧ '_' ∈ potentialTimestamp then
      replaceUnderscores (f.take lastUnderscore)
    else replaceUnderscores f

/-- A calendar instant, the data time.Now formats into the filename. -/
structure Tm where
  year : Nat
  month : Nat
  day : Nat
  hour : Nat
  minute : Nat
  second : Nat
  deriving DecidableEq

def natDigits (n : Nat) : Str := (Nat.repr n).data

def padZeros (w : Nat) (l : Str) : Str := List.replicate (w - l.length) '0' ++ l

/-- The Go layout 20060102 150405 with an underscore in between. -/
def formatTimestamp (t : Tm) : Str :=
  padZeros 4 (natDigits t.year) ++ padZeros 2 (natDigits t.month) ++ padZeros 2 (natDigits t.day)
    ++ '_' :: (padZeros 2 (natDigits t.hour) ++ padZeros 2 (natDigits t.minute)
      ++ padZeros 2 (natDigits t.second))

/-- The character class kept by the regexp: anything else becomes an underscore. -/
def isFilenameKeptChar (c : Char) : Bool :=
  decide (('a' ≤ c ∧ c ≤ 'z') ∨ ('A' ≤ c ∧ c ≤ 'Z') ∨ ('0' ≤ c ∧ c ≤ '9') ∨ c = '-' ∨ c = '_')

/-- utils.GenerateFilename: sanitize the label, lower-case it, truncate to 20
characters and append an underscore plus the formatted timestamp. -/
def GenerateFilename (siteName : Str) (now : Tm) : Str :=
  let cleanName := siteName.map fun c => if isFilenameKeptChar c then c else '_'
  let cleanName := cleanName.map Char.toLower
  let cleanName := if 20 < cleanName.length then cleanName.take 20 else cleanName
  cleanName ++ '_' :: formatTimestamp now

/-- list.PasswordEntry as projected by the catalog. -/
structure PasswordEntry where
  filename : Str
  siteName : Str
  username : Str
  email : Str
  createdAt : Nat
  deriving DecidableEq

/-- The per-entry body of the loop in menus.getAllPasswordEntries: skip
directories, files without the gpg extension, the validation file init.gpg and
anything mentioning the checker directory; then decrypt, skipping the entry on
failure. -/
def entryFromDir (fs : FS Blob) (pf : PasswordFolder) (e : DirEntry) : Option PasswordEntry :=
  if e.isDir = true ∨ ¬ goHasSuffix e.name ".gpg".data = true then none
  else if e.name = "init.gpg".data then none
  else if goContains e.name ".checker".data = true then none
  else
    let filename := trimSuffix e.name ".gpg".data
    match DecryptPasswordFromFile fs pf filename with
    | .error _ => none
    | .ok d =>
      some ⟨filename, ParseFilenameToSiteName filename, d.username, d.email, d.createdAt⟩

/-- menus.getAllPasswordEntries over the refreshed directory listing held in
the password folder. -/
def getAllPasswordEntries (fs : FS Blob) (pf : PasswordFolder) : List PasswordEntry :=
  pf.dirs.filterMap (entryFromDir fs pf)

/-- menus.validatePassword. -/
def validatePassword (password : Str) : Bool := decide (8 ≤ password.length)

/-- menus.validatePhrase. -/
def validatePhrase (phrase : Str) : Bool := decide (12 ≤ phrase.length)

structure LoginResult where
  fs : FS Blob
  pf : PasswordFolder
  ok : Bool

/-- menus.Login. When the store is not initialized the bootstrap block runs:
the re-prompt loops are modelled by their final accepted inputs, the phrase is
sealed as the validation record under the candidate master password, the init
flag is raised and the bootstrap password buffer cleared. Then the login
prompt stores the entered passphrase in the folder, the validation record is
decrypted with it, and on success the folder password is assigned the password
field of the decrypted record. -/
def Login (fs : FS Blob) (pf : PasswordFolder) (setupPassword phrase : Str)
    (enteredLogin : Str) (now : Nat) : LoginResult :=
  let st :=
    if pf.initCheck = false then
      let pfA := { pf with password := setupPassword }
      let pfB := { pfA with initCheck := false }
      let d : Data := { password := phrase, username := [], email := [], url := [],
                        createdAt := now, updatedAt := now }
      let fsA := EncryptPasswordAndWriteToFile fs pfB ".checker/init".data d
      (fsA, { pfB with initCheck := true, password := [] })
    else (fs, pf)
  let pf2 := { st.2 with password := enteredLogin }
  match DecryptPasswordFromFile st.1 pf2 ".checker/init".data with
  | .error _ => ⟨st.1, pf2, false⟩
  | .ok d => ⟨st.1, { pf2 with password := d.password }, true⟩

inductive RotResult where
  | wrongCurrent
  | criticalDecrypt
  | criticalMismatch
  | success
  deriving DecidableEq

structure RotOut where
  fs : FS Blob
  pf : PasswordFolder
  result : RotResult

/-- menus.ChangeMasterPassword after the form was submitted: verify the current
passphrase by decrypting the validation record, abort restoring the previous
session password when that fails; otherwise re-seal the record (with a fresh
modified timestamp) under the new passphrase, decrypt it again with the new
passphrase and compare the recovered phrase before declaring success. The
os level write is total in this model, so the write failure branch of the Go
code has no counterpart here. -/
def ChangeMasterPassword (fs : FS Blob) (pf : PasswordFolder) (currentPass newPass : Str)
    (now : Nat) : RotOut :=
  let oldPassword := pf.password
  let pf1 := { pf with password := currentPass }
  match DecryptPasswordFromFile fs pf1 ".checker/init".data with
  | .error _ => ⟨fs, { pf1 with password := oldPassword }, .wrongCurrent⟩
  | .ok validationData =>
    let pf2 := { pf1 with password := newPass }
    let vd := { validationData with updatedAt := now }
    let fs2 := EncryptPasswordAndWriteToFile fs pf2 ".checker/init".data vd
    match DecryptPasswordFromFile fs2 pf2 ".checker/init".data with
    | .error _ => ⟨fs2, pf2, .criticalDecrypt⟩
    | .ok testData =>
      if testData.password ≠ vd.password then ⟨fs2, pf2, .criticalMismatch⟩
      else ⟨fs2, pf2, .success⟩

/-- utils.PasswordOptions. -/
structure PasswordOptions where
  length : Nat
  includeUppercase : Bool
  includeLowercase : Bool
  includeNumbers : Bool
  includeSymbols : Bool
  excludeAmbiguous : Bool
  deriving DecidableEq

def uppercaseChars : Str := "ABCDEFGHIJKLMNOPQRSTUVWXYZ".data

def lowercaseChars : Str := "abcdefghijklmnopqrstuvwxyz".data

def numberChars : Str := "0123456789".data

def symbolChars : Str := "!@#$%^&*()-_=+[]\x7b\x7d|;:,.<>?".data

def ambiguousChars : Str := "0O1lI".data

/-- utils.removeAmbiguousChars: strings.ReplaceAll of each ambiguous character
by the empty string, in order. -/
def removeAmbiguousChars (charset : Str) : Str :=
  ambiguousChars.foldl (fun result c => result.filter (fun x => x ≠ c)) charset

/-- utils.getRandomChar fed one value of the random oracle: empty charset gives
the error case, otherwise the draw indexes the charset uniformly. -/
def getRandomChar (charset : Str) (r : Nat) : Option Char :=
  charset[r % charset.length]?

/-- Parallel assignment slice i, slice j = slice j, slice i of the Go shuffle;
out of range indices leave the list unchanged. -/
def setSwap {α : Type} (l : List α) (i j : Nat) : List α :=
  match l[i]?, l[j]? with
  | some x, some y => (l.set i y).set j x
  | _, _ => l

/-- The loop of utils.shuffleBytes: index i counts down from length - 1 while
positive, swapping position i with a draw bounded by i + 1; k indexes the
random oracle. -/
def fyLoop (g : Nat → Nat) : Nat → Nat → List Char → List Char
  | _, 0, l => l
  | k, i + 1, l => fyLoop g (k + 1) i (setSwap l (i + 1) (g k % (i + 2)))

/-- utils.shuffleBytes, a Fisher and Yates shuffle driven by the oracle. -/
def shuffleBytes (g : Nat → Nat) (k : Nat) (l : List Char) : List Char :=
  fyLoop g k (l.length - 1) l

/-- One of the four class blocks of utils.GeneratePassword: when the class is
requested, append its charset to the active charset and try to draw one
guaranteed character from it, consuming one oracle value on success. The state
is the active charset, the guaranteed characters, and the oracle index. -/
def addClass (g : Nat → Nat) (inc : Bool) (chars : Str) :
    Str × Str × Nat → Str × Str × Nat
  | (cs, gu, k) =>
    if inc = true then
      match getRandomChar chars (g k) with
      | some c => (cs ++ chars, gu ++ [c], k + 1)
      | none => (cs ++ chars, gu, k)
    else (cs, gu, k)

/-- The charset of a class block: filtered of ambiguous characters on request. -/
def classChars (excl : Bool) (base : Str) : Str :=
  if excl = true then removeAmbiguousChars base else base

/-- The fill loop of utils.GeneratePassword: n further draws from the active
charset, failing if a draw fails. -/
def fillLoop (g : Nat → Nat) (charset : Str) : Nat → Nat → Option Str
  | _, 0 => some []
  | k, n + 1 =>
    match getRandomChar charset (g k) with
    | none => none
    | some c => (fillLoop g charset (k + 1) n).map (fun rest => c :: rest)

/-- utils.GeneratePassword: validate the options, build the active charset and
the guaranteed characters through the four class blocks, place the guaranteed
characters first, fill the remaining positions from the active charset, then
shuffle the buffer. -/
def GeneratePassword (opts : PasswordOptions) (g : Nat → Nat) : Except Str Str :=
  if opts.length < 8 ∨ 64 < opts.length then
    .error "password length must be between 8 and 64 characters".data
  else if opts.includeUppercase = false ∧ opts.includeLowercase = false ∧
      opts.includeNumbers = false ∧ opts.includeSymbols = false then
    .error "at least one character type must be included".data
  else
    let st1 := addClass g opts.includeUppercase
      (classChars opts.excludeAmbiguous uppercaseChars) ([], [], 0)
    let st2 := addClass g opts.includeLowercase
      (classChars opts.excludeAmbiguous lowercaseChars) st1
    let st3 := addClass g opts.includeNumbers
      (classChars opts.excludeAmbiguous numberChars) st2
    let st4 := addClass g opts.includeSymbols symbolChars st3
    match fillLoop g st4.1 st4.2.2 (opts.length - st4.2.1.length) with
    | none => .error "failed to generate random character".data
    | some fills =>
      let password := st4.2.1.take opts.length ++ fills
      .ok (shuffleBytes g (st4.2.2 + (opts.length - st4.2.1.length)) password)

/-! Concrete sample store used by witnesses and counterexamples. -/

def homeLoc : Str := "/home/user/.password-manager-store".data

def phraseData : Data := ⟨"correct horse battery".data, [], [], [], 3, 3⟩

def pfLive : PasswordFolder := ⟨homeLoc, [], true, []⟩

def storeLive : FS Blob :=
  [(filePath pfLive ".checker/init".data, ⟨"master123".data, jsonMarshal phraseData⟩)]

def blobBad : Blob := ⟨"master123".data, Plain.malformed 0⟩

def storeBad : FS Blob := [(filePath pfLive "badfile".data, blobBad)]

/-! Theorems. -/

/-- C10: store level put and get round trip: WriteToFile followed by
ReadFromFile on the same key returns exactly the written content, and the
write addresses the path obtained from the root directory joined with the key
plus the gpg suffix, the very path ReadFromFile reads. -/
theorem writeToFile_readFromFile_roundtrip {α : Type} (fs : FS α) (pf : PasswordFolder)
    (fileName : Str) (input : α) :
    ReadFromFile (WriteToFile fs pf fileName input).1 pf fileName = some input ∧
    (WriteToFile fs pf fileName input).2.path
      = pf.folderLocation ++ '/' :: (fileName ++ ".gpg".data) ∧
    (WriteToFile fs pf fileName input).2.path = filePath pf fileName := by
  refine ⟨?_, rfl, rfl⟩
  simp [ReadFromFile, WriteToFile, fsWrite, fsRead]

/-- C7 counterexample: at a concrete key and content, the file created by the
store write does not carry an owner only mode: its group and world permission
bits are not all zero. -/
theorem writeToFile_mode_not_owner_only :
    ¬ ((WriteToFile (α := Plain) [] pfLive "alpha".data (.malformed 0)).2.mode &&& 0o077 = 0) := by
  decide

/-- C7 amended: every write the store performs lands under the store root, at
the root joined with the key plus the gpg suffix, and the written content is
readable back at that path; but the file is always created with mode 0666,
whose group and world bits are 066, so owner only file permissions are not
enforced. -/
theorem writeToFile_under_root_mode_0666 {α : Type} (fs : FS α) (pf : PasswordFolder)
    (fileName : Str) (input : α) :
    (pf.folderLocation ++ ['/']) <+: (WriteToFile fs pf fileName input).2.path ∧
    (WriteToFile fs pf fileName input).2.mode = 0o666 ∧
    (WriteToFile fs pf fileName input).2.mode &&& 0o077 = 0o66 ∧
    fsRead (WriteToFile fs pf fileName input).1 (WriteToFile fs pf fileName input).2.path
      = some input := by
  refine ⟨⟨fileName ++ ".gpg".data, ?_⟩, rfl, ?_, ?_⟩
  · simp [WriteToFile, filePath]
  · show (0o666 : Nat) &&& 0o077 = 0o66
    decide
  · simp [WriteToFile, fsWrite, fsRead]

/-- C9 counterexample: at a concrete store whose validation blob decrypts but
holds a plaintext that does not deserialize, DecryptPasswordFromFile returns a
success carrying the zero record instead of a failure. -/
theorem decryptPasswordFromFile_malformed_ok_counterexample :
    DecryptPasswordFromFile storeBad
      { pfLive with password := "master123".data } "badfile".data = .ok emptyData := by
  rfl

/-- C9 amended: whenever decryption of the stored blob succeeds (the folder
password matches the sealing passphrase) but the recovered plaintext cannot be
deserialized into a record, DecryptPasswordFromFile returns a SUCCESS carrying
the zero valued record: the deserialization error is discarded, and no failure
is surfaced. -/
theorem decryptPasswordFromFile_malformed_returns_ok (fs : FS Blob) (pf : PasswordFolder)
    (fileName : Str) (blob : Blob)
    (hread : ReadFromFile fs pf fileName = some blob)
    (hpass : pf.password = blob.pass)
    (hbad : jsonUnmarshal blob.plain = none) :
    DecryptPasswordFromFile fs pf fileName = .ok emptyData := by
  simp [DecryptPasswordFromFile, hread, hpass, hbad]

/-- Witness for the C9 amended theorem at a concrete malformed blob. -/
theorem decryptPasswordFromFile_malformed_returns_ok_witness :
    ReadFromFile storeBad { pfLive with password := "master123".data } "badfile".data
      = some blobBad ∧
    DecryptPasswordFromFile storeBad
      { pfLive with password := "master123".data } "badfile".data = .ok emptyData :=
  ⟨by decide,
    decryptPasswordFromFile_malformed_returns_ok storeBad
      { pfLive with password := "master123".data } "badfile".data blobBad
      (by decide) (by decide) (by decide)⟩

/-- C8: when the store is already initialized, Login never mutates the store:
whatever passphrase is supplied and whether the attempt succeeds or fails, the
filesystem after Login is exactly the filesystem before. -/
theorem login_initialized_store_unchanged (fs : FS Blob) (pf : PasswordFolder)
    (setupPassword phrase enteredLogin : Str) (now : Nat)
    (hinit : pf.initCheck = true) :
    (Login fs pf setupPassword phrase enteredLogin now).fs = fs := by
  unfold Login
  rw [hinit]
  simp only [Bool.true_eq_false, if_false]
  cases hD : DecryptPasswordFromFile fs { pf with password := enteredLogin } ".checker/init".data
    <;> simp [hD]

/-- Witness for the C8 theorem on the concrete live store. -/
theorem login_initialized_store_unchanged_witness :
    pfLive.initCheck = true ∧
    (Login storeLive pfLive "a".data "b".data "master123".data 0).fs = storeLive :=
  ⟨rfl, login_initialized_store_unchanged storeLive pfLive "a".data "b".data
    "master123".data 0 rfl⟩

/-- C3: at the failing input, a store bootstrapped with master password
master123 and validation phrase correct horse battery, Login with the correct
master password succeeds, but the session passphrase afterwards is the stored
validation phrase, not the passphrase that was entered. -/
theorem login_session_password_is_stored_phrase :
    (Login storeLive pfLive [] [] "master123".data 0).ok = true ∧
    (Login storeLive pfLive [] [] "master123".data 0).pf.password
      = "correct horse battery".data ∧
    ¬ (Login storeLive pfLive [] [] "master123".data 0).pf.password = "master123".data := by
  refine ⟨?_, ?_, ?_⟩ <;> decide

/-- Characterization of decryption with an arbitrary trial passphrase on a
store whose file holds a known blob: success exactly under the sealing
passphrase. -/
lemma decrypt_eval (fs : FS Blob) (pf : PasswordFolder) (n : Str) (blob : Blob)
    (hread : ReadFromFile fs pf n = some blob) (q : Str) :
    DecryptPasswordFromFile fs { pf with password := q } n =
      if q = blob.pass then
        match jsonUnmarshal blob.plain with
        | some d => .ok d
        | none => .ok emptyData
      else .error .cipher := by
  unfold DecryptPasswordFromFile
  rw [show ReadFromFile fs { pf with password := q } n = ReadFromFile fs pf n from rfl, hread]

/-- Decrypting the validation record with the passphrase it was sealed under
recovers the record. -/
lemma decrypt_init_correct_pass (fs : FS Blob) (pf : PasswordFolder) (A : Str) (d0 : Data)
    (hread : ReadFromFile fs pf ".checker/init".data = some ⟨A, jsonMarshal d0⟩) :
    DecryptPasswordFromFile fs { pf with password := A } ".checker/init".data = .ok d0 := by
  rw [decrypt_eval fs pf _ _ hread A, if_pos rfl]
  rfl

/-- Evaluation of the rotation on a store whose validation record is sealed
under the supplied current passphrase: the record is re-sealed under the new
passphrase with a fresh modified timestamp, the session password becomes the
new passphrase, and the protocol reports success. -/
lemma changeMasterPassword_eval (fs : FS Blob) (pf : PasswordFolder) (A B : Str) (now : Nat)
    (d0 : Data)
    (hread : ReadFromFile fs pf ".checker/init".data = some ⟨A, jsonMarshal d0⟩) :
    ChangeMasterPassword fs pf A B now =
      ⟨fsWrite fs (filePath pf ".checker/init".data)
          ⟨B, jsonMarshal { d0 with updatedAt := now }⟩,
       { pf with password := B }, .success⟩ := by
  have hd1 := decrypt_init_correct_pass fs pf A d0 hread
  simp only [ChangeMasterPassword]
  rw [hd1]
  simp only [DecryptPasswordFromFile, ReadFromFile, EncryptPasswordAndWriteToFile, WriteToFile,
    fsWrite, fsRead, jsonUnmarshal, jsonMarshal]
  simp [filePath]

/-- C1 counterexample: when the new passphrase equals the old one, 9 characters
long and hence valid, the rotation succeeds and afterwards opening the
validation record with the OLD passphrase still succeeds, contrary to the
claim that it fails. -/
theorem rotation_same_passphrase_counterexample :
    (ChangeMasterPassword storeLive pfLive "master123".data "master123".data 7).result
      = .success ∧
    DecryptPasswordFromFile
        (ChangeMasterPassword storeLive pfLive "master123".data "master123".data 7).fs
        { (ChangeMasterPassword storeLive pfLive "master123".data "master123".data 7).pf with
          password := "master123".data } ".checker/init".data
      = .ok { phraseData with updatedAt := 7 } := by
  exact ⟨rfl, rfl⟩

/-- C1 amended: for a store bootstrapped under old passphrase A, rotation with
correct current passphrase A and a valid new passphrase B of at least 8
characters that DIFFERS from A succeeds; afterwards opening the validation
record with B succeeds, opening it with A fails, the validation phrase stored
in the record is unchanged, and the session passphrase equals B. -/
theorem changeMasterPassword_rotation_correct (fs : FS Blob) (pf : PasswordFolder)
    (A B : Str) (now : Nat) (d0 : Data)
    (hread : ReadFromFile fs pf ".checker/init".data = some ⟨A, jsonMarshal d0⟩)
    (hlen : 8 ≤ B.length) (hne : B ≠ A) :
    (ChangeMasterPassword fs pf A B now).result = .success ∧
    DecryptPasswordFromFile (ChangeMasterPassword fs pf A B now).fs
        { (ChangeMasterPassword fs pf A B now).pf with password := B } ".checker/init".data
      = .ok { d0 with updatedAt := now } ∧
    (∀ d, DecryptPasswordFromFile (ChangeMasterPassword fs pf A B now).fs
        { (ChangeMasterPassword fs pf A B now).pf with password := A } ".checker/init".data
      ≠ .ok d) ∧
    ({ d0 with updatedAt := now } : Data).password = d0.password ∧
    (ChangeMasterPassword fs pf A B now).pf.password = B := by
  have _ := hlen
  rw [changeMasterPassword_eval fs pf A B now d0 hread]
  refine ⟨rfl, ?_, ?_, rfl, rfl⟩
  · simp [DecryptPasswordFromFile, ReadFromFile, fsRead, fsWrite, filePath, jsonUnmarshal,
      jsonMarshal]
  · intro d
    simp [DecryptPasswordFromFile, ReadFromFile, fsRead, fsWrite, filePath, Ne.symm hne]

/-- Witness for the C1 amended theorem: rotating the live store from master123
to newpass456. -/
theorem changeMasterPassword_rotation_correct_witness :
    (ReadFromFile storeLive pfLive ".checker/init".data
        = some ⟨"master123".data, jsonMarshal phraseData⟩) ∧
    8 ≤ ("newpass456".data : Str).length ∧
    ("newpass456".data : Str) ≠ "master123".data ∧
    ((ChangeMasterPassword storeLive pfLive "master123".data "newpass456".data 7).result
        = .success ∧
      DecryptPasswordFromFile
          (ChangeMasterPassword storeLive pfLive "master123".data "newpass456".data 7).fs
          { (ChangeMasterPassword storeLive pfLive "master123".data "newpass456".data 7).pf with
            password := "newpass456".data } ".checker/init".data
        = .ok { phraseData with updatedAt := 7 } ∧
      (∀ d, DecryptPasswordFromFile
          (ChangeMasterPassword storeLive pfLive "master123".data "newpass456".data 7).fs
          { (ChangeMasterPassword storeLive pfLive "master123".data "newpass456".data 7).pf with
            password := "master123".data } ".checker/init".data
        ≠ .ok d) ∧
      ({ phraseData with updatedAt := 7 } : Data).password = phraseData.password ∧
      (ChangeMasterPassword storeLive pfLive "master123".data "newpass456".data 7).pf.password
        = "newpass456".data) :=
  ⟨by decide, by decide, by decide,
    changeMasterPassword_rotation_correct storeLive pfLive "master123".data "newpass456".data 7
      phraseData (by decide) (by decide) (by decide)⟩

/-- C2: rotation invoked with a current passphrase that fails to decrypt the
validation record aborts with the wrong current password report, leaves the
filesystem and the folder state unchanged, and the validation record remains
decryptable exactly under the original passphrase. -/
theorem changeMasterPassword_wrong_current_aborts (fs : FS Blob) (pf : PasswordFolder)
    (currentPass newPass origPass : Str) (now : Nat) (blob : Blob)
    (hread : ReadFromFile fs pf ".checker/init".data = some blob)
    (horig : blob.pass = origPass)
    (hwrong : currentPass ≠ origPass) :
    (ChangeMasterPassword fs pf currentPass newPass now).result = .wrongCurrent ∧
    (ChangeMasterPassword fs pf currentPass newPass now).fs = fs ∧
    (ChangeMasterPassword fs pf currentPass newPass now).pf = pf ∧
    ∀ q : Str, (∃ d, DecryptPasswordFromFile fs { pf with password := q }
        ".checker/init".data = .ok d) ↔ q = origPass := by
  have hcp : ¬ (currentPass = blob.pass) := fun h => hwrong (h.trans horig)
  have hd1 : DecryptPasswordFromFile fs { pf with password := currentPass } ".checker/init".data
      = .error .cipher := by
    rw [decrypt_eval fs pf _ blob hread currentPass, if_neg hcp]
  simp only [ChangeMasterPassword]
  rw [hd1]
  refine ⟨rfl, rfl, rfl, ?_⟩
  intro q
  rw [decrypt_eval fs pf _ blob hread q]
  by_cases hqp : q = blob.pass
  · rw [if_pos hqp]
    constructor
    · intro _
      exact hqp.trans horig
    · intro _
      cases hu : jsonUnmarshal blob.plain with
      | some d => exact ⟨d, rfl⟩
      | none => exact ⟨emptyData, rfl⟩
  · rw [if_neg hqp]
    constructor
    · rintro ⟨d, hd⟩
      exact absurd hd (by simp)
    · intro hq
      exact absurd (hq.trans horig.symm) hqp

/-- Witness for the C2 theorem: a wrong current passphrase on the live store. -/
theorem changeMasterPassword_wrong_current_aborts_witness :
    (ReadFromFile storeLive pfLive ".checker/init".data
        = some ⟨"master123".data, jsonMarshal phraseData⟩) ∧
    (Blob.pass ⟨"master123".data, jsonMarshal phraseData⟩ = "master123".data) ∧
    ("wrongpass9".data : Str) ≠ "master123".data ∧
    ((ChangeMasterPassword storeLive pfLive "wrongpass9".data "newpass456".data 7).result
        = .wrongCurrent ∧
      (ChangeMasterPassword storeLive pfLive "wrongpass9".data "newpass456".data 7).fs
        = storeLive ∧
      (ChangeMasterPassword storeLive pfLive "wrongpass9".data "newpass456".data 7).pf
        = pfLive ∧
      ∀ q : Str, (∃ d, DecryptPasswordFromFile storeLive { pfLive with password := q }
          ".checker/init".data = .ok d) ↔ q = "master123".data) :=
  ⟨by decide, by decide, by decide,
    changeMasterPassword_wrong_current_aborts storeLive pfLive "wrongpass9".data
      "newpass456".data "master123".data 7 ⟨"master123".data, jsonMarshal phraseData⟩
      (by decide) (by decide) (by decide)⟩

/-- When lastIndexOf finds nothing, the character does not occur. -/
lemma lastIndexOf_eq_none {l : Str} {c : Char} (h : lastIndexOf l c = none) : c ∉ l := by
  induction l with
  | nil => simp
  | cons a t ih =>
    unfold lastIndexOf at h
    cases ht : lastIndexOf t c with
    | some i => rw [ht] at h; simp at h
    | none =>
      rw [ht] at h
      by_cases hac : a = c
      · rw [if_pos hac] at h; simp at h
      · rw [if_neg hac] at h
        intro hmem
        rcases List.mem_cons.mp hmem with hca | hct
        · exact hac hca.symm
        · exact ih ht hct

/-- The suffix strictly after the position found by lastIndexOf never contains
the searched character: the timestamp recognition branch of the filename
parser is therefore unreachable. -/
lemma lastIndexOf_drop {l : Str} {c : Char} {i : Nat} (h : lastIndexOf l c = some i) :
    c ∉ l.drop (i + 1) := by
  induction l generalizing i with
  | nil => simp [lastIndexOf] at h
  | cons a t ih =>
    unfold lastIndexOf at h
    cases ht : lastIndexOf t c with
    | some j =>
      rw [ht] at h
      obtain rfl : j + 1 = i := Option.some.inj h
      simpa using ih ht
    | none =>
      rw [ht] at h
      by_cases hac : a = c
      · rw [if_pos hac] at h
        obtain rfl : (0 : Nat) = i := Option.some.inj h
        simpa using lastIndexOf_eq_none ht
      · rw [if_neg hac] at h
        exact absurd h (by simp)

/-- On every input the filename parser only strips a gpg extension and turns
underscores into spaces: the branch meant to drop a trailing timestamp never
fires, because the segment after the LAST underscore cannot itself contain an
underscore. -/
lemma parse_never_drops (f : Str) :
    ParseFilenameToSiteName f = replaceUnderscores
      (if goHasSuffix f ".gpg".data then trimSuffix f ".gpg".data else f) := by
  unfold ParseFilenameToSiteName
  cases hL : lastIndexOf (if goHasSuffix f ".gpg".data then trimSuffix f ".gpg".data else f) '_'
    with
  | none => simp [hL]
  | some i =>
    have hnm := lastIndexOf_drop hL
    simp [hL, hnm]

/-- C6: at the failing input, site name github and instant 2025-10-11 12:34:56,
decoding the encoded filename does NOT recover the label: the timestamp suffix
is kept, with its underscores turned into spaces. In general the parser never
drops a timestamp, since the recognition branch tests the segment after the
last underscore for containing an underscore, which is impossible. -/
theorem parse_generate_keeps_timestamp :
    ParseFilenameToSiteName (GenerateFilename "github".data ⟨2025, 10, 11, 12, 34, 56⟩)
      = "github 20251011 123456".data ∧
    ¬ ("github 20251011 123456".data = ("github".data : Str)) ∧
    ∀ f : Str, ParseFilenameToSiteName f = replaceUnderscores
      (if goHasSuffix f ".gpg".data then trimSuffix f ".gpg".data else f) :=
  ⟨by decide, by decide, parse_never_drops⟩

def isOkB {ε α : Type} : Except ε α → Bool
  | .ok _ => true
  | .error _ => false

lemma isOkB_iff {ε α : Type} {r : Except ε α} : isOkB r = true ↔ ∃ x, r = .ok x := by
  cases r <;> simp [isOkB]

lemma goHasSuffix_iff {s suf : Str} : goHasSuffix s suf = true ↔ suf <:+ s := by
  simp [goHasSuffix]

lemma goContains_iff {s sub : Str} : goContains s sub = true ↔ sub <:+: s := by
  simp [goContains]

/-- Trimming a present suffix and appending it back recovers the name. -/
lemma trimSuffix_append {s suf : Str} (h : goHasSuffix s suf = true) :
    trimSuffix s suf ++ suf = s := by
  obtain ⟨t, ht⟩ := goHasSuffix_iff.mp h
  unfold trimSuffix
  rw [if_pos h, ← ht]
  have hlen : (t ++ suf).length - suf.length = t.length := by
    simp [List.length_append]
  rw [hlen, List.take_left]

/-- An infix of a trimmed name is an infix of the name. -/
lemma infix_trimSuffix {sub s suf : Str} (h : sub <:+: trimSuffix s suf) : sub <:+: s := by
  unfold trimSuffix at h
  split at h
  · exact h.trans (List.take_prefix _ _).isInfix
  · exact h

/-- A filterMap where the function succeeds on every element preserves length. -/
lemma length_filterMap_all_some {α β : Type} (f : α → Option β) (l : List α)
    (h : ∀ e ∈ l, ∃ x, f e = some x) : (l.filterMap f).length = l.length := by
  induction l with
  | nil => rfl
  | cons a t ih =>
    obtain ⟨x, hx⟩ := h a (List.mem_cons_self a t)
    rw [List.filterMap_cons, hx]
    simp only [List.length_cons]
    rw [ih (fun e he => h e (List.mem_cons_of_mem a he))]

/-- A directory entry that passes every filter and decrypts yields its catalog
projection. -/
lemma entryFromDir_some_of_good {fs : FS Blob} {pf : PasswordFolder} {e : DirEntry}
    (h1 : e.isDir = false) (h2 : goHasSuffix e.name ".gpg".data = true)
    (h3 : e.name ≠ "init.gpg".data) (h4 : goContains e.name ".checker".data = false)
    {d : Data}
    (h5 : DecryptPasswordFromFile fs pf (trimSuffix e.name ".gpg".data) = .ok d) :
    entryFromDir fs pf e = some ⟨trimSuffix e.name ".gpg".data,
      ParseFilenameToSiteName (trimSuffix e.name ".gpg".data),
      d.username, d.email, d.createdAt⟩ := by
  unfold entryFromDir
  rw [if_neg (by simp [h1, h2]), if_neg h3, if_neg (by simp [h4])]
  dsimp only
  rw [h5]

/-- Conversely, a produced catalog entry comes from an entry that passed every
filter, and carries the trimmed file name. -/
lemma entryFromDir_eq_some {fs : FS Blob} {pf : PasswordFolder} {e : DirEntry}
    {en : PasswordEntry} (h : entryFromDir fs pf e = some en) :
    goHasSuffix e.name ".gpg".data = true ∧ e.name ≠ "init.gpg".data ∧
    goContains e.name ".checker".data = false ∧
    en.filename = trimSuffix e.name ".gpg".data := by
  unfold entryFromDir at h
  split at h
  · exact absurd h (by simp)
  · rename_i hc1
    push_neg at hc1
    split at h
    · exact absurd h (by simp)
    · rename_i hc2
      split at h
      · exact absurd h (by simp)
      · rename_i hc3
        refine ⟨by simpa using hc1.2, hc2, by simpa using hc3, ?_⟩
        dsimp only at h
        split at h
        · exact absurd h (by simp)
        · exact (Option.some.inj h).symm ▸ rfl

/-- C4: catalog enumeration over a listing holding decryptable records around
one file that fails to decrypt returns exactly the entries of the decryptable
records, in order, without error; the count equals the number of decryptable
records, and no returned entry is the validation record: no entry is named
init and none mentions the checker directory. -/
theorem getAllPasswordEntries_skips_undecryptable
    (fs : FS Blob) (loc : Str) (ic : Bool) (pw : Str)
    (goods₁ goods₂ : List DirEntry) (bad : DirEntry) (err : DecErr)
    (hgood : ∀ e ∈ goods₁ ++ goods₂, e.isDir = false ∧
      goHasSuffix e.name ".gpg".data = true ∧ e.name ≠ "init.gpg".data ∧
      goContains e.name ".checker".data = false ∧
      isOkB (DecryptPasswordFromFile fs ⟨loc, goods₁ ++ bad :: goods₂, ic, pw⟩
        (trimSuffix e.name ".gpg".data)) = true)
    (hbadfile : bad.isDir = false ∧ goHasSuffix bad.name ".gpg".data = true ∧
      bad.name ≠ "init.gpg".data ∧ goContains bad.name ".checker".data = false)
    (hbaddec : DecryptPasswordFromFile fs ⟨loc, goods₁ ++ bad :: goods₂, ic, pw⟩
      (trimSuffix bad.name ".gpg".data) = .error err) :
    getAllPasswordEntries fs ⟨loc, goods₁ ++ bad :: goods₂, ic, pw⟩
      = goods₁.filterMap (entryFromDir fs ⟨loc, goods₁ ++ bad :: goods₂, ic, pw⟩)
        ++ goods₂.filterMap (entryFromDir fs ⟨loc, goods₁ ++ bad :: goods₂, ic, pw⟩) ∧
    (getAllPasswordEntries fs ⟨loc, goods₁ ++ bad :: goods₂, ic, pw⟩).length
      = goods₁.length + goods₂.length ∧
    ∀ en ∈ getAllPasswordEntries fs ⟨loc, goods₁ ++ bad :: goods₂, ic, pw⟩,
      en.filename ≠ "init".data ∧ ¬ ((".checker".data : Str) <:+: en.filename) := by
  have hbadnone : entryFromDir fs ⟨loc, goods₁ ++ bad :: goods₂, ic, pw⟩ bad = none := by
    unfold entryFromDir
    rw [if_neg (by simp [hbadfile.1, hbadfile.2.1]), if_neg hbadfile.2.2.1,
      if_neg (by simp [hbadfile.2.2.2])]
    dsimp only
    rw [hbaddec]
  have hmain : getAllPasswordEntries fs ⟨loc, goods₁ ++ bad :: goods₂, ic, pw⟩
      = goods₁.filterMap (entryFromDir fs ⟨loc, goods₁ ++ bad :: goods₂, ic, pw⟩)
        ++ goods₂.filterMap (entryFromDir fs ⟨loc, goods₁ ++ bad :: goods₂, ic, pw⟩) := by
    unfold getAllPasswordEntries
    rw [show (⟨loc, goods₁ ++ bad :: goods₂, ic, pw⟩ : PasswordFolder).dirs
        = goods₁ ++ bad :: goods₂ from rfl]
    rw [List.filterMap_append, List.filterMap_cons, hbadnone]
  have hall₁ : ∀ e ∈ goods₁,
      ∃ x, entryFromDir fs ⟨loc, goods₁ ++ bad :: goods₂, ic, pw⟩ e = some x := by
    intro e he
    obtain ⟨h1, h2, h3, h4, h5⟩ := hgood e (List.mem_append_left _ he)
    obtain ⟨d, hd⟩ := isOkB_iff.mp h5
    exact ⟨_, entryFromDir_some_of_good h1 h2 h3 h4 hd⟩
  have hall₂ : ∀ e ∈ goods₂,
      ∃ x, entryFromDir fs ⟨loc, goods₁ ++ bad :: goods₂, ic, pw⟩ e = some x := by
    intro e he
    obtain ⟨h1, h2, h3, h4, h5⟩ := hgood e (List.mem_append_right _ he)
    obtain ⟨d, hd⟩ := isOkB_iff.mp h5
    exact ⟨_, entryFromDir_some_of_good h1 h2 h3 h4 hd⟩
  refine ⟨hmain, ?_, ?_⟩
  · rw [hmain, List.length_append, length_filterMap_all_some _ _ hall₁,
      length_filterMap_all_some _ _ hall₂]
  · intro en hen
    unfold getAllPasswordEntries at hen
    obtain ⟨e, _, hee⟩ := List.mem_filterMap.mp hen
    obtain ⟨hsuf, hninit, hnch, hfn⟩ := entryFromDir_eq_some hee
    constructor
    · intro hmem
      apply hninit
      have htrim := trimSuffix_append hsuf
      rw [← htrim, ← hfn, hmem]
      rfl
    · intro hinf
      rw [hfn] at hinf
      have hinf2 : (".checker".data : Str) <:+: e.name := infix_trimSuffix hinf
      exact absurd (goContains_iff.mpr hinf2) (by simp [hnch])

def dirGood1 : DirEntry := ⟨"site1_20250101_010101.gpg".data, false⟩

def dirGood2 : DirEntry := ⟨"site2_20250101_010101.gpg".data, false⟩

def dirBad : DirEntry := ⟨"corrupt.gpg".data, false⟩

def fsCat : FS Blob :=
  [(filePath pfLive "site1_20250101_010101".data,
      ⟨"master123".data, jsonMarshal ⟨"p1".data, "u1".data, "e1".data, [], 1, 1⟩⟩),
   (filePath pfLive "site2_20250101_010101".data,
      ⟨"master123".data, jsonMarshal ⟨"p2".data, [], [], [], 2, 2⟩⟩),
   (filePath pfLive "corrupt".data, ⟨"otherpass".data, jsonMarshal emptyData⟩)]

/-- Witness for the C4 theorem: two decryptable records around one file sealed
under a foreign passphrase. -/
theorem getAllPasswordEntries_skips_undecryptable_witness :
    (∀ e ∈ [dirGood1] ++ [dirGood2], e.isDir = false ∧
      goHasSuffix e.name ".gpg".data = true ∧ e.name ≠ "init.gpg".data ∧
      goContains e.name ".checker".data = false ∧
      isOkB (DecryptPasswordFromFile fsCat
        ⟨homeLoc, [dirGood1] ++ dirBad :: [dirGood2], true, "master123".data⟩
        (trimSuffix e.name ".gpg".data)) = true) ∧
    (dirBad.isDir = false ∧ goHasSuffix dirBad.name ".gpg".data = true ∧
      dirBad.name ≠ "init.gpg".data ∧ goContains dirBad.name ".checker".data = false) ∧
    (DecryptPasswordFromFile fsCat
      ⟨homeLoc, [dirGood1] ++ dirBad :: [dirGood2], true, "master123".data⟩
      (trimSuffix dirBad.name ".gpg".data) = .error .cipher) ∧
    (getAllPasswordEntries fsCat
        ⟨homeLoc, [dirGood1] ++ dirBad :: [dirGood2], true, "master123".data⟩
      = [dirGood1].filterMap (entryFromDir fsCat
          ⟨homeLoc, [dirGood1] ++ dirBad :: [dirGood2], true, "master123".data⟩)
        ++ [dirGood2].filterMap (entryFromDir fsCat
          ⟨homeLoc, [dirGood1] ++ dirBad :: [dirGood2], true, "master123".data⟩) ∧
      (getAllPasswordEntries fsCat
          ⟨homeLoc, [dirGood1] ++ dirBad :: [dirGood2], true, "master123".data⟩).length
        = [dirGood1].length + [dirGood2].length ∧
      ∀ en ∈ getAllPasswordEntries fsCat
          ⟨homeLoc, [dirGood1] ++ dirBad :: [dirGood2], true, "master123".data⟩,
        en.filename ≠ "init".data ∧ ¬ ((".checker".data : Str) <:+: en.filename)) :=
  ⟨by decide, by decide, by rfl,
    getAllPasswordEntries_skips_undecryptable fsCat homeLoc true "master123".data
      [dirGood1] [dirGood2] dirBad .cipher (by decide) (by decide) (by rfl)⟩

lemma getRandomChar_mem {cs : Str} {r : Nat} {c : Char} (h : getRandomChar cs r = some c) :
    c ∈ cs := by
  unfold getRandomChar at h
  obtain ⟨hlt, hc⟩ := List.getElem?_eq_some.mp h
  exact hc ▸ List.getElem_mem hlt

lemma getRandomChar_isSome {cs : Str} (hcs : cs ≠ []) (r : Nat) :
    ∃ c, getRandomChar cs r = some c := by
  unfold getRandomChar
  have hlen : 0 < cs.length := List.length_pos.mpr hcs
  have hlt : r % cs.length < cs.length := Nat.mod_lt _ hlen
  exact ⟨_, List.getElem?_eq_getElem hlt⟩

/-- Moving the element at an index to the front while writing a fresh value at
that index is a permutation of consing the fresh value. -/
lemma perm_cons_set {α : Type} (t : List α) (k : Nat) (hk : k < t.length) (a : α) :
    List.Perm (t[k] :: t.set k a) (a :: t) := by
  induction t generalizing k with
  | nil => simp at hk
  | cons b t ih =>
    cases k with
    | zero => simpa using List.Perm.swap a b t
    | succ m =>
      have hm : m < t.length := by simpa using hk
      have h1 : List.Perm (t[m] :: b :: t.set m a) (b :: t[m] :: t.set m a) :=
        List.Perm.swap b _ _
      have h2 : List.Perm (b :: t[m] :: t.set m a) (b :: a :: t) := (ih m hm).cons b
      have h3 : List.Perm (b :: a :: t) (a :: b :: t) := List.Perm.swap a b t
      simpa using h1.trans (h2.trans h3)

/-- Exchanging the values at two in-range indices is a permutation. -/
lemma perm_set_getElem_swap {α : Type} (l : List α) (i j : Nat) (hi : i < l.length)
    (hj : j < l.length) : List.Perm ((l.set i l[j]).set j l[i]) l := by
  induction l generalizing i j with
  | nil => simp at hi
  | cons a t ih =>
    cases i with
    | zero =>
      cases j with
      | zero => simp
      | succ m =>
        have hm : m < t.length := by simpa using hj
        simpa using perm_cons_set t m hm a
    | succ n =>
      cases j with
      | zero =>
        have hn : n < t.length := by simpa using hi
        simpa using perm_cons_set t n hn a
      | succ m =>
        have hn : n < t.length := by simpa using hi
        have hm : m < t.length := by simpa using hj
        simpa using (ih n m hn hm).cons a

lemma setSwap_perm {α : Type} (l : List α) (i j : Nat) : List.Perm (setSwap l i j) l := by
  unfold setSwap
  cases hi : l[i]? with
  | none => exact List.Perm.refl l
  | some x =>
    cases hj : l[j]? with
    | none => exact List.Perm.refl l
    | some y =>
      obtain ⟨hi2, hxi⟩ := List.getElem?_eq_some.mp hi
      obtain ⟨hj2, hyj⟩ := List.getElem?_eq_some.mp hj
      dsimp only
      rw [← hxi, ← hyj]
      exact perm_set_getElem_swap l i j hi2 hj2

lemma fyLoop_perm (g : Nat → Nat) (i : Nat) :
    ∀ (k : Nat) (l : List Char), List.Perm (fyLoop g k i l) l := by
  induction i with
  | zero => intro k l; exact List.Perm.refl l
  | succ n ih =>
    intro k l
    exact (ih (k + 1) _).trans (setSwap_perm l (n + 1) (g k % (n + 2)))

lemma shuffleBytes_perm (g : Nat → Nat) (k : Nat) (l : List Char) :
    List.Perm (shuffleBytes g k l) l :=
  fyLoop_perm g (l.length - 1) k l

lemma addClass_gu_mono (g : Nat → Nat) (inc : Bool) (chars : Str) (st : Str × Str × Nat)
    {c : Char} (hc : c ∈ st.2.1) : c ∈ (addClass g inc chars st).2.1 := by
  obtain ⟨cs, gu, k⟩ := st
  simp only [addClass]
  cases inc with
  | false => simpa using hc
  | true =>
    rw [if_pos rfl]
    cases hrc : getRandomChar chars (g k) with
    | none => simpa using hc
    | some c0 =>
      dsimp only
      exact List.mem_append_left _ (by simpa using hc)

lemma addClass_guarantee (g : Nat → Nat) (inc : Bool) (chars : Str) (st : Str × Str × Nat)
    (hinc : inc = true) (hne : chars ≠ []) :
    ∃ c, c ∈ (addClass g inc chars st).2.1 ∧ c ∈ chars := by
  obtain ⟨cs, gu, k⟩ := st
  subst hinc
  simp only [addClass]
  rw [if_pos trivial]
  obtain ⟨c0, hc0⟩ := getRandomChar_isSome hne (g k)
  rw [hc0]
  exact ⟨c0, by simp, getRandomChar_mem hc0⟩

lemma addClass_gu_pred (g : Nat → Nat) (inc : Bool) (chars : Str) (st : Str × Str × Nat)
    (P : Char → Prop) (hchars : ∀ c ∈ chars, P c) (hst : ∀ c ∈ st.2.1, P c) :
    ∀ c ∈ (addClass g inc chars st).2.1, P c := by
  obtain ⟨cs, gu, k⟩ := st
  simp only [addClass]
  cases inc with
  | false => simpa using hst
  | true =>
    rw [if_pos rfl]
    cases hrc : getRandomChar chars (g k) with
    | none => simpa using hst
    | some c0 =>
      dsimp only
      intro c hc
      rcases List.mem_append.mp hc with h | h
      · exact hst c (by simpa using h)
      · rw [List.mem_singleton.mp h]
        exact hchars c0 (getRandomChar_mem hrc)

lemma addClass_charset_pred (g : Nat → Nat) (inc : Bool) (chars : Str) (st : Str × Str × Nat)
    (P : Char → Prop) (hchars : ∀ c ∈ chars, P c) (hst : ∀ c ∈ st.1, P c) :
    ∀ c ∈ (addClass g inc chars st).1, P c := by
  obtain ⟨cs, gu, k⟩ := st
  simp only [addClass]
  cases inc with
  | false => simpa using hst
  | true =>
    rw [if_pos rfl]
    cases hrc : getRandomChar chars (g k) with
    | none =>
      dsimp only
      intro c hc
      rcases List.mem_append.mp hc with h | h
      · exact hst c (by simpa using h)
      · exact hchars c h
    | some c0 =>
      dsimp only
      intro c hc
      rcases List.mem_append.mp hc with h | h
      · exact hst c (by simpa using h)
      · exact hchars c h

lemma addClass_charset_mono (g : Nat → Nat) (inc : Bool) (chars : Str) (st : Str × Str × Nat)
    {c : Char} (hc : c ∈ st.1) : c ∈ (addClass g inc chars st).1 := by
  obtain ⟨cs, gu, k⟩ := st
  simp only [addClass]
  cases inc with
  | false => simpa using hc
  | true =>
    rw [if_pos rfl]
    cases hrc : getRandomChar chars (g k) with
    | none => exact List.mem_append_left _ (by simpa using hc)
    | some c0 => exact List.mem_append_left _ (by simpa using hc)

lemma addClass_chars_self (g : Nat → Nat) (inc : Bool) (chars : Str) (st : Str × Str × Nat)
    (hinc : inc = true) {c : Char} (hc : c ∈ chars) : c ∈ (addClass g inc chars st).1 := by
  obtain ⟨cs, gu, k⟩ := st
  subst hinc
  simp only [addClass]
  rw [if_pos trivial]
  cases hrc : getRandomChar chars (g k) with
  | none => exact List.mem_append_right _ hc
  | some c0 => exact List.mem_append_right _ hc

lemma addClass_gu_len (g : Nat → Nat) (inc : Bool) (chars : Str) (st : Str × Str × Nat) :
    (addClass g inc chars st).2.1.length ≤ st.2.1.length + 1 := by
  obtain ⟨cs, gu, k⟩ := st
  simp only [addClass]
  cases inc with
  | false => simp
  | true =>
    rw [if_pos rfl]
    cases hrc : getRandomChar chars (g k) with
    | none => simp
    | some c0 => simp

lemma fillLoop_spec (g : Nat → Nat) (cs : Str) (hcs : cs ≠ []) :
    ∀ (n k : Nat), ∃ fills, fillLoop g cs k n = some fills ∧ fills.length = n ∧
      ∀ c ∈ fills, c ∈ cs := by
  intro n
  induction n with
  | zero => exact fun k => ⟨[], rfl, rfl, by simp⟩
  | succ m ih =>
    intro k
    obtain ⟨c0, hc0⟩ := getRandomChar_isSome hcs (g k)
    obtain ⟨fills, hf, hlen, hmem⟩ := ih (k + 1)
    refine ⟨c0 :: fills, ?_, by simp [hlen], ?_⟩
    · show (match getRandomChar cs (g k) with
        | none => none
        | some c => (fillLoop g cs (k + 1) m).map (fun rest => c :: rest)) = some (c0 :: fills)
      rw [hc0, hf]
      rfl
    · intro c hc
      rcases List.mem_cons.mp hc with h | h
      · exact h ▸ getRandomChar_mem hc0
      · exact hmem c h

lemma removeAmbiguousChars_subset (base : Str) : ∀ c ∈ removeAmbiguousChars base, c ∈ base := by
  unfold removeAmbiguousChars
  suffices h : ∀ (amb cur : Str), ∀ c ∈ amb.foldl (fun r c => r.filter (fun x => x ≠ c)) cur,
      c ∈ cur from h ambiguousChars base
  intro amb
  induction amb with
  | nil => intro cur c hc; simpa using hc
  | cons a t ih =>
    intro cur c hc
    exact List.mem_of_mem_filter (ih (cur.filter (fun x => x ≠ a)) c (by simpa using hc))

lemma classChars_subset (e : Bool) (base : Str) : ∀ c ∈ classChars e base, c ∈ base := by
  cases e with
  | false => simp [classChars]
  | true => exact fun c hc => removeAmbiguousChars_subset base c (by simpa [classChars] using hc)

lemma classChars_up_ne (e : Bool) : classChars e uppercaseChars ≠ [] := by
  cases e <;> decide

lemma classChars_low_ne (e : Bool) : classChars e lowercaseChars ≠ [] := by
  cases e <;> decide

lemma classChars_num_ne (e : Bool) : classChars e numberChars ≠ [] := by
  cases e <;> decide

lemma symbolChars_ne : (symbolChars : Str) ≠ [] := by decide

lemma classChars_true_up_amb : ∀ c ∈ classChars true uppercaseChars, c ∉ ambiguousChars := by
  decide

lemma classChars_true_low_amb : ∀ c ∈ classChars true lowercaseChars, c ∉ ambiguousChars := by
  decide

lemma classChars_true_num_amb : ∀ c ∈ classChars true numberChars, c ∉ ambiguousChars := by
  decide

lemma symbolChars_amb : ∀ c ∈ symbolChars, c ∉ ambiguousChars := by decide

lemma four_addClass_gu_len (g : Nat → Nat) (i1 i2 i3 i4 : Bool) (c1 c2 c3 c4 : Str) :
    (addClass g i4 c4 (addClass g i3 c3 (addClass g i2 c2
      (addClass g i1 c1 ([], [], 0))))).2.1.length ≤ 4 := by
  have l1 := addClass_gu_len g i1 c1 ([], [], 0)
  have l2 := addClass_gu_len g i2 c2 (addClass g i1 c1 ([], [], 0))
  have l3 := addClass_gu_len g i3 c3 (addClass g i2 c2 (addClass g i1 c1 ([], [], 0)))
  have l4 := addClass_gu_len g i4 c4
    (addClass g i3 c3 (addClass g i2 c2 (addClass g i1 c1 ([], [], 0))))
  simp only [List.length_nil] at l1
  omega

lemma four_addClass_gu_pred (g : Nat → Nat) (i1 i2 i3 i4 : Bool) (c1 c2 c3 c4 : Str)
    (P : Char → Prop) (h1 : ∀ c ∈ c1, P c) (h2 : ∀ c ∈ c2, P c) (h3 : ∀ c ∈ c3, P c)
    (h4 : ∀ c ∈ c4, P c) :
    ∀ c ∈ (addClass g i4 c4 (addClass g i3 c3 (addClass g i2 c2
      (addClass g i1 c1 ([], [], 0))))).2.1, P c := by
  have p0 : ∀ c ∈ (([], [], 0) : Str × Str × Nat).2.1, P c := by simp
  exact addClass_gu_pred g _ _ _ P h4 (addClass_gu_pred g _ _ _ P h3
    (addClass_gu_pred g _ _ _ P h2 (addClass_gu_pred g _ _ _ P h1 p0)))

lemma four_addClass_charset_pred (g : Nat → Nat) (i1 i2 i3 i4 : Bool) (c1 c2 c3 c4 : Str)
    (P : Char → Prop) (h1 : ∀ c ∈ c1, P c) (h2 : ∀ c ∈ c2, P c) (h3 : ∀ c ∈ c3, P c)
    (h4 : ∀ c ∈ c4, P c) :
    ∀ c ∈ (addClass g i4 c4 (addClass g i3 c3 (addClass g i2 c2
      (addClass g i1 c1 ([], [], 0))))).1, P c := by
  have p0 : ∀ c ∈ (([], [], 0) : Str × Str × Nat).1, P c := by simp
  exact addClass_charset_pred g _ _ _ P h4 (addClass_charset_pred g _ _ _ P h3
    (addClass_charset_pred g _ _ _ P h2 (addClass_charset_pred g _ _ _ P h1 p0)))

lemma four_addClass_guarantee₁ (g : Nat → Nat) (i1 i2 i3 i4 : Bool) (c1 c2 c3 c4 : Str)
    (hinc : i1 = true) (hne : c1 ≠ []) :
    ∃ c, c ∈ (addClass g i4 c4 (addClass g i3 c3 (addClass g i2 c2
      (addClass g i1 c1 ([], [], 0))))).2.1 ∧ c ∈ c1 := by
  obtain ⟨c, hc, hcc⟩ := addClass_guarantee g i1 c1 ([], [], 0) hinc hne
  exact ⟨c, addClass_gu_mono g _ _ _ (addClass_gu_mono g _ _ _
    (addClass_gu_mono g _ _ _ hc)), hcc⟩

lemma four_addClass_guarantee₂ (g : Nat → Nat) (i1 i2 i3 i4 : Bool) (c1 c2 c3 c4 : Str)
    (hinc : i2 = true) (hne : c2 ≠ []) :
    ∃ c, c ∈ (addClass g i4 c4 (addClass g i3 c3 (addClass g i2 c2
      (addClass g i1 c1 ([], [], 0))))).2.1 ∧ c ∈ c2 := by
  obtain ⟨c, hc, hcc⟩ := addClass_guarantee g i2 c2 (addClass g i1 c1 ([], [], 0)) hinc hne
  exact ⟨c, addClass_gu_mono g _ _ _ (addClass_gu_mono g _ _ _ hc), hcc⟩

lemma four_addClass_guarantee₃ (g : Nat → Nat) (i1 i2 i3 i4 : Bool) (c1 c2 c3 c4 : Str)
    (hinc : i3 = true) (hne : c3 ≠ []) :
    ∃ c, c ∈ (addClass g i4 c4 (addClass g i3 c3 (addClass g i2 c2
      (addClass g i1 c1 ([], [], 0))))).2.1 ∧ c ∈ c3 := by
  obtain ⟨c, hc, hcc⟩ := addClass_guarantee g i3 c3
    (addClass g i2 c2 (addClass g i1 c1 ([], [], 0))) hinc hne
  exact ⟨c, addClass_gu_mono g _ _ _ hc, hcc⟩

lemma four_addClass_guarantee₄ (g : Nat → Nat) (i1 i2 i3 i4 : Bool) (c1 c2 c3 c4 : Str)
    (hinc : i4 = true) (hne : c4 ≠ []) :
    ∃ c, c ∈ (addClass g i4 c4 (addClass g i3 c3 (addClass g i2 c2
      (addClass g i1 c1 ([], [], 0))))).2.1 ∧ c ∈ c4 :=
  addClass_guarantee g i4 c4
    (addClass g i3 c3 (addClass g i2 c2 (addClass g i1 c1 ([], [], 0)))) hinc hne

lemma four_addClass_chars_sub₁ (g : Nat → Nat) (i1 i2 i3 i4 : Bool) (c1 c2 c3 c4 : Str)
    (hinc : i1 = true) {c : Char} (hc : c ∈ c1) :
    c ∈ (addClass g i4 c4 (addClass g i3 c3 (addClass g i2 c2
      (addClass g i1 c1 ([], [], 0))))).1 :=
  addClass_charset_mono g _ _ _ (addClass_charset_mono g _ _ _
    (addClass_charset_mono g _ _ _ (addClass_chars_self g _ _ _ hinc hc)))

lemma four_addClass_chars_sub₂ (g : Nat → Nat) (i1 i2 i3 i4 : Bool) (c1 c2 c3 c4 : Str)
    (hinc : i2 = true) {c : Char} (hc : c ∈ c2) :
    c ∈ (addClass g i4 c4 (addClass g i3 c3 (addClass g i2 c2
      (addClass g i1 c1 ([], [], 0))))).1 :=
  addClass_charset_mono g _ _ _ (addClass_charset_mono g _ _ _
    (addClass_chars_self g _ _ _ hinc hc))

lemma four_addClass_chars_sub₃ (g : Nat → Nat) (i1 i2 i3 i4 : Bool) (c1 c2 c3 c4 : Str)
    (hinc : i3 = true) {c : Char} (hc : c ∈ c3) :
    c ∈ (addClass g i4 c4 (addClass g i3 c3 (addClass g i2 c2
      (addClass g i1 c1 ([], [], 0))))).1 :=
  addClass_charset_mono g _ _ _ (addClass_chars_self g _ _ _ hinc hc)

lemma four_addClass_chars_sub₄ (g : Nat → Nat) (i1 i2 i3 i4 : Bool) (c1 c2 c3 c4 : Str)
    (hinc : i4 = true) {c : Char} (hc : c ∈ c4) :
    c ∈ (addClass g i4 c4 (addClass g i3 c3 (addClass g i2 c2
      (addClass g i1 c1 ([], [], 0))))).1 :=
  addClass_chars_self g _ _ _ hinc hc

/-- C5: for every options value with length between 8 and 64 and at least one
character class selected, and every random oracle, GeneratePassword succeeds
with a string of exactly the requested length containing at least one
character of each requested class, and containing no ambiguous character when
exclusion is requested. -/
theorem generatePassword_spec (opts : PasswordOptions) (g : Nat → Nat)
    (h8 : 8 ≤ opts.length) (h64 : opts.length ≤ 64)
    (hclass : opts.includeUppercase = true ∨ opts.includeLowercase = true ∨
      opts.includeNumbers = true ∨ opts.includeSymbols = true) :
    ∃ pw : Str, GeneratePassword opts g = .ok pw ∧
      pw.length = opts.length ∧
      (opts.includeUppercase = true → ∃ c ∈ pw, c ∈ uppercaseChars) ∧
      (opts.includeLowercase = true → ∃ c ∈ pw, c ∈ lowercaseChars) ∧
      (opts.includeNumbers = true → ∃ c ∈ pw, c ∈ numberChars) ∧
      (opts.includeSymbols = true → ∃ c ∈ pw, c ∈ symbolChars) ∧
      (opts.excludeAmbiguous = true → ∀ c ∈ pw, c ∉ ambiguousChars) := by
  have hneg1 : ¬ (opts.length < 8 ∨ 64 < opts.length) := by omega
  have hneg2 : ¬ (opts.includeUppercase = false ∧ opts.includeLowercase = false ∧
      opts.includeNumbers = false ∧ opts.includeSymbols = false) := by
    rcases hclass with h | h | h | h <;> simp [h]
  set T4 := addClass g opts.includeSymbols symbolChars
    (addClass g opts.includeNumbers (classChars opts.excludeAmbiguous numberChars)
      (addClass g opts.includeLowercase (classChars opts.excludeAmbiguous lowercaseChars)
        (addClass g opts.includeUppercase (classChars opts.excludeAmbiguous uppercaseChars)
          ([], [], 0)))) with hT4
  have hcsne : T4.1 ≠ [] := by
    rw [hT4]
    rcases hclass with h | h | h | h
    · obtain ⟨c, hc⟩ := List.exists_mem_of_ne_nil _ (classChars_up_ne opts.excludeAmbiguous)
      exact List.ne_nil_of_mem (four_addClass_chars_sub₁ g _ _ _ _ _ _ _ _ h hc)
    · obtain ⟨c, hc⟩ := List.exists_mem_of_ne_nil _ (classChars_low_ne opts.excludeAmbiguous)
      exact List.ne_nil_of_mem (four_addClass_chars_sub₂ g _ _ _ _ _ _ _ _ h hc)
    · obtain ⟨c, hc⟩ := List.exists_mem_of_ne_nil _ (classChars_num_ne opts.excludeAmbiguous)
      exact List.ne_nil_of_mem (four_addClass_chars_sub₃ g _ _ _ _ _ _ _ _ h hc)
    · obtain ⟨c, hc⟩ := List.exists_mem_of_ne_nil _ symbolChars_ne
      exact List.ne_nil_of_mem (four_addClass_chars_sub₄ g _ _ _ _ _ _ _ _ h hc)
  obtain ⟨fills, hfill, hflen, hfmem⟩ :=
    fillLoop_spec g T4.1 hcsne (opts.length - T4.2.1.length) T4.2.2
  have hgulen : T4.2.1.length ≤ 4 := by
    rw [hT4]
    exact four_addClass_gu_len g _ _ _ _ _ _ _ _
  have htake : T4.2.1.take opts.length = T4.2.1 := List.take_of_length_le (by omega)
  refine ⟨shuffleBytes g (T4.2.2 + (opts.length - T4.2.1.length))
    (T4.2.1.take opts.length ++ fills), ?_, ?_, ?_, ?_, ?_, ?_, ?_⟩
  · unfold GeneratePassword
    rw [if_neg hneg1, if_neg hneg2]
    dsimp only
    rw [← hT4, hfill]
  · have hp := (shuffleBytes_perm g (T4.2.2 + (opts.length - T4.2.1.length))
      (T4.2.1.take opts.length ++ fills)).length_eq
    rw [hp, List.length_append, htake, hflen]
    omega
  · intro h
    obtain ⟨c, hc, hcc⟩ : ∃ c, c ∈ T4.2.1 ∧ c ∈ classChars opts.excludeAmbiguous uppercaseChars := by
      rw [hT4]
      exact four_addClass_guarantee₁ g _ _ _ _ _ _ _ _ h (classChars_up_ne _)
    refine ⟨c, ?_, classChars_subset _ _ c hcc⟩
    exact (shuffleBytes_perm g _ _).mem_iff.mpr
      (List.mem_append_left fills (htake.symm ▸ hc))
  · intro h
    obtain ⟨c, hc, hcc⟩ : ∃ c, c ∈ T4.2.1 ∧ c ∈ classChars opts.excludeAmbiguous lowercaseChars := by
      rw [hT4]
      exact four_addClass_guarantee₂ g _ _ _ _ _ _ _ _ h (classChars_low_ne _)
    refine ⟨c, ?_, classChars_subset _ _ c hcc⟩
    exact (shuffleBytes_perm g _ _).mem_iff.mpr
      (List.mem_append_left fills (htake.symm ▸ hc))
  · intro h
    obtain ⟨c, hc, hcc⟩ : ∃ c, c ∈ T4.2.1 ∧ c ∈ classChars opts.excludeAmbiguous numberChars := by
      rw [hT4]
      exact four_addClass_guarantee₃ g _ _ _ _ _ _ _ _ h (classChars_num_ne _)
    refine ⟨c, ?_, classChars_subset _ _ c hcc⟩
    exact (shuffleBytes_perm g _ _).mem_iff.mpr
      (List.mem_append_left fills (htake.symm ▸ hc))
  · intro h
    obtain ⟨c, hc, hcc⟩ : ∃ c, c ∈ T4.2.1 ∧ c ∈ symbolChars := by
      rw [hT4]
      exact four_addClass_guarantee₄ g _ _ _ _ _ _ _ _ h symbolChars_ne
    refine ⟨c, ?_, hcc⟩
    exact (shuffleBytes_perm g _ _).mem_iff.mpr
      (List.mem_append_left fills (htake.symm ▸ hc))
  · intro hamb
    have hch1 : ∀ c ∈ classChars opts.excludeAmbiguous uppercaseChars, c ∉ ambiguousChars := by
      rw [hamb]
      exact classChars_true_up_amb
    have hch2 : ∀ c ∈ classChars opts.excludeAmbiguous lowercaseChars, c ∉ ambiguousChars := by
      rw [hamb]
      exact classChars_true_low_amb
    have hch3 : ∀ c ∈ classChars opts.excludeAmbiguous numberChars, c ∉ ambiguousChars := by
      rw [hamb]
      exact classChars_true_num_amb
    have hgu : ∀ c ∈ T4.2.1, c ∉ ambiguousChars := by
      rw [hT4]
      exact four_addClass_gu_pred g _ _ _ _ _ _ _ _ _ hch1 hch2 hch3 symbolChars_amb
    have hcs : ∀ c ∈ T4.1, c ∉ ambiguousChars := by
      rw [hT4]
      exact four_addClass_charset_pred g _ _ _ _ _ _ _ _ _ hch1 hch2 hch3 symbolChars_amb
    intro c hc
    have hc0 : c ∈ T4.2.1.take opts.length ++ fills :=
      (shuffleBytes_perm g _ _).mem_iff.mp hc
    rcases List.mem_append.mp hc0 with h | h
    · exact hgu c (htake ▸ h)
    · exact hcs c (hfmem c h)


/-- Witness for the C5 theorem: all classes, length 12, ambiguous excluded,
identity oracle. -/
theorem generatePassword_spec_witness :
    8 ≤ (PasswordOptions.mk 12 true true true true true).length ∧
    (PasswordOptions.mk 12 true true true true true).length ≤ 64 ∧
    ((PasswordOptions.mk 12 true true true true true).includeUppercase = true ∨
      (PasswordOptions.mk 12 true true true true true).includeLowercase = true ∨
      (PasswordOptions.mk 12 true true true true true).includeNumbers = true ∨
      (PasswordOptions.mk 12 true true true true true).includeSymbols = true) ∧
    (∃ pw : Str, GeneratePassword (PasswordOptions.mk 12 true true true true true)
        (fun n => n) = .ok pw ∧
      pw.length = (PasswordOptions.mk 12 true true true true true).length ∧
      ((PasswordOptions.mk 12 true true true true true).includeUppercase = true →
        ∃ c ∈ pw, c ∈ uppercaseChars) ∧
      ((PasswordOptions.mk 12 true true true true true).includeLowercase = true →
        ∃ c ∈ pw, c ∈ lowercaseChars) ∧
      ((PasswordOptions.mk 12 true true true true true).includeNumbers = true →
        ∃ c ∈ pw, c ∈ numberChars) ∧
      ((PasswordOptions.mk 12 true true true true true).includeSymbols = true →
        ∃ c ∈ pw, c ∈ symbolChars) ∧
      ((PasswordOptions.mk 12 true true true true true).excludeAmbiguous = true →
        ∀ c ∈ pw, c ∉ ambiguousChars)) :=
  ⟨by decide, by decide, by decide,
    generatePassword_spec (PasswordOptions.mk 12 true true true true true) (fun n => n)
      (by decide) (by decide) (by decide)⟩

end PasswordCharm
